import Mathlib

/-!
Verification of the gotheora repository (Go bindings and wrapper around the
Theora video codec library) against its natural-language specification.

The file shallowly embeds the pure algorithmic core of `theora.go`:
 * `TheoraYUVbuffer.ConvertFromRasterImage` — RGB → planar YUV conversion
   with 4:2:0 / 4:2:2 / 4:4:4 chroma subsampling, 16-pixel padding and
   fixed-point BT.601 matrix arithmetic on Go `uint32` values;
 * the `TheoraInfo` boolean setters/getters (`SetDropFrames`,
   `SetKeyframeAuto`, `SetQuick`);
 * the status-code dispatch of `TheoraEncoder.PacketOut`;
 * the sequencing skeletons of `TheoraEncoder.SaveCustomHeadersToStream`,
   `Flush` and `Close` (external cgo/ogg calls modelled as oracles).

Machine integers are embedded as `Nat` with explicit reduction mod 2^32
where the Go source computes on `uint32`.
-/

namespace GoTheora


/-- Modulus of Go `uint32` arithmetic. -/
def W32 : Nat := 4294967296

/-- Go `uint32` addition. -/
def uadd (a b : Nat) : Nat := (a + b) % W32

/-- Go `uint32` subtraction (two's-complement wraparound). -/
def usub (a b : Nat) : Nat := (a + (W32 - b % W32)) % W32

/-- Go `uint32` multiplication. -/
def umul (a b : Nat) : Nat := (a * b) % W32

/-- The `clamp` helper of `ConvertFromRasterImage`:
`if v > 255 { return 255 }; return byte(v)`. -/
def clamp (v : Nat) : Nat := if v > 255 then 255 else v

/-- The `booltoint` helper of `ConvertFromRasterImage`. -/
def booltoint (v : Bool) : Nat := if v then 1 else 0

/-- A `color.NRGBA` value: red, green, blue channels (alpha is never read by
the converter).  Go stores the channels as `uint8`. -/
structure NRGBA where
  r : Nat
  g : Nat
  b : Nat

/-- A raster image (`image.Image`): bounds `w × h` and the NRGBA color of
each pixel, as produced by `color.NRGBAModel.Convert` in the `nrgb` helper. -/
structure RasterImage where
  w : Nat
  h : Nat
  pix : Nat → Nat → NRGBA

/-- The `nrgb` helper: channels of the pixel at `(x, y)` widened to `uint32`.
`color.NRGBA` stores `uint8` fields, hence the reduction mod 256. -/
def nrgb (img : RasterImage) (x y : Nat) : NRGBA :=
  ⟨(img.pix x y).r % 256, (img.pix x y).g % 256, (img.pix x y).b % 256⟩

/-- Luma expression `(65481*r + 128553*g + 24966*b + 4207500) / 255000`
on `uint32`. -/
def yExpr (r g b : Nat) : Nat :=
  uadd (uadd (uadd (umul 65481 r) (umul 128553 g)) (umul 24966 b)) 4207500 / 255000

/-- Chroma-U contribution `29032005 - 33488*r - 65744*g + 99232*b`
on `uint32` (left-to-right evaluation as in Go). -/
def cuExpr (r g b : Nat) : Nat :=
  uadd (usub (usub 29032005 (umul 33488 r)) (umul 65744 g)) (umul 99232 b)

/-- Chroma-V contribution `157024*r - 131488*g - 25536*b + 45940035`
on `uint32` (left-to-right evaluation; intermediate values wrap). -/
def cvExpr (r g b : Nat) : Nat :=
  uadd (usub (usub (umul 157024 r) (umul 131488 g)) (umul 25536 b)) 45940035

/-- `int(uint32(v+15) & ^uint32(0xf))`: padded dimension computation. -/
def pad16 (v : Nat) : Nat := ((v + 15) % W32) &&& 0xfffffff0

/-! ### The conversion loops of `ConvertFromRasterImage` -/

/-- Luma contribution terms evaluated at a pixel. -/
def cuAt (img : RasterImage) (x y : Nat) : Nat :=
  cuExpr (nrgb img x y).r (nrgb img x y).g (nrgb img x y).b

def cvAt (img : RasterImage) (x y : Nat) : Nat :=
  cvExpr (nrgb img x y).r (nrgb img x y).g (nrgb img x y).b

/-- The luma byte stored for pixel (x, y):
`clamp((65481*r + 128553*g + 24966*b + 4207500) / 255000)`. -/
def lumaAt (img : RasterImage) (x y : Nat) : Nat :=
  clamp (yExpr (nrgb img x y).r (nrgb img x y).g (nrgb img x y).b)

/-- The chroma-U byte the 4:2:0 body stores for the 2×2 block whose top-left
luma position is (x, y): each of the four contributions is divided by 4,
the quotients are summed and divided by 225930, then clamped. -/
def u420valAt (img : RasterImage) (x y : Nat) : Nat :=
  let x1 := x + booltoint (decide (x + 1 < img.w))
  let y1 := y + booltoint (decide (y + 1 < img.h))
  clamp (uadd (uadd (uadd (cuAt img x y / 4) (cuAt img x1 y / 4))
    (cuAt img x y1 / 4)) (cuAt img x1 y1 / 4) / 225930)

/-- The chroma-V byte the 4:2:0 body stores for the block at (x, y). -/
def v420valAt (img : RasterImage) (x y : Nat) : Nat :=
  let x1 := x + booltoint (decide (x + 1 < img.w))
  let y1 := y + booltoint (decide (y + 1 < img.h))
  clamp (uadd (uadd (uadd (cvAt img x y / 4) (cvAt img x1 y / 4))
    (cvAt img x y1 / 4)) (cvAt img x1 y1 / 4) / 357510)

/-- The chroma-U byte the 4:2:2 body stores for the 2×1 block at (x, y). -/
def u422valAt (img : RasterImage) (x y : Nat) : Nat :=
  let x1 := x + booltoint (decide (x + 1 < img.w))
  clamp (uadd (cuAt img x y / 2) (cuAt img x1 y / 2) / 225930)

/-- The chroma-V byte the 4:2:2 body stores for the 2×1 block at (x, y). -/
def v422valAt (img : RasterImage) (x y : Nat) : Nat :=
  let x1 := x + booltoint (decide (x + 1 < img.w))
  clamp (uadd (cvAt img x y / 2) (cvAt img x1 y / 2) / 357510)

/-- In-bounds check for sampling the image at (x, y): the loops must only
call `aData.At(x, y)` with `0 ≤ x < w` and `0 ≤ y < h`. -/
def rdOk (img : RasterImage) (x y : Nat) : Bool :=
  decide (x < img.w) && decide (y < img.h)

/-- State of the three plane slices during conversion.  `ok` records that
every slice store and every image sample so far was within bounds (a Go
slice store out of range would panic). -/
structure ConvSt where
  yArr : List Nat
  uArr : List Nat
  vArr : List Nat
  ok : Bool
deriving DecidableEq

/-- Body of the 4:2:0 loop for the 2×2 block whose top-left luma position is
(x, y); `yuv_w` is the luma stride and `uvS` the chroma stride. -/
def block420 (img : RasterImage) (yuv_w uvS : Nat) (x y : Nat) (st : ConvSt) : ConvSt :=
  let x1 := x + booltoint (decide (x + 1 < img.w))
  let y1 := y + booltoint (decide (y + 1 < img.h))
  { yArr := (((st.yArr.set (x + y * yuv_w) (lumaAt img x y)).set
        (x1 + y * yuv_w) (lumaAt img x1 y)).set
        (x + y1 * yuv_w) (lumaAt img x y1)).set
        (x1 + y1 * yuv_w) (lumaAt img x1 y1),
    uArr := st.uArr.set ((x >>> 1) + (y >>> 1) * uvS) (u420valAt img x y),
    vArr := st.vArr.set ((x >>> 1) + (y >>> 1) * uvS) (v420valAt img x y),
    ok := st.ok && rdOk img x y && rdOk img x1 y && rdOk img x y1 && rdOk img x1 y1
      && decide (x + y * yuv_w < st.yArr.length) && decide (x1 + y * yuv_w < st.yArr.length)
      && decide (x + y1 * yuv_w < st.yArr.length) && decide (x1 + y1 * yuv_w < st.yArr.length)
      && decide ((x >>> 1) + (y >>> 1) * uvS < st.uArr.length)
      && decide ((x >>> 1) + (y >>> 1) * uvS < st.vArr.length) }

/-- The 4:2:0 double loop: `y` steps by 2 while `y < h`, `x` steps by 2
while `x < w`. -/
def conv420 (img : RasterImage) (yuv_w uvS : Nat) (st : ConvSt) : ConvSt :=
  (List.range ((img.h + 1) / 2)).foldl (fun s bj =>
    (List.range ((img.w + 1) / 2)).foldl (fun t bi =>
      block420 img yuv_w uvS (2 * bi) (2 * bj) t) s) st

/-- Body of the 4:4:4 loop for the pixel (x, y); all three planes are
indexed with the luma stride `yuv_w`, as in the source. -/
def pix444 (img : RasterImage) (yuv_w : Nat) (x y : Nat) (st : ConvSt) : ConvSt :=
  { yArr := st.yArr.set (x + y * yuv_w) (lumaAt img x y),
    uArr := st.uArr.set (x + y * yuv_w) (clamp (cuAt img x y / 225930)),
    vArr := st.vArr.set (x + y * yuv_w) (clamp (cvAt img x y / 357510)),
    ok := st.ok && rdOk img x y
      && decide (x + y * yuv_w < st.yArr.length)
      && decide (x + y * yuv_w < st.uArr.length)
      && decide (x + y * yuv_w < st.vArr.length) }

/-- The 4:4:4 double loop over every pixel. -/
def conv444 (img : RasterImage) (yuv_w : Nat) (st : ConvSt) : ConvSt :=
  (List.range img.h).foldl (fun s y =>
    (List.range img.w).foldl (fun t x => pix444 img yuv_w x y t) s) st

/-- Body of the 4:2:2 loop for the 2×1 block at (x, y). -/
def block422 (img : RasterImage) (yuv_w uvS : Nat) (x y : Nat) (st : ConvSt) : ConvSt :=
  let x1 := x + booltoint (decide (x + 1 < img.w))
  { yArr := (st.yArr.set (x + y * yuv_w) (lumaAt img x y)).set
        (x1 + y * yuv_w) (lumaAt img x1 y),
    uArr := st.uArr.set ((x >>> 1) + y * uvS) (u422valAt img x y),
    vArr := st.vArr.set ((x >>> 1) + y * uvS) (v422valAt img x y),
    ok := st.ok && rdOk img x y && rdOk img x1 y
      && decide (x + y * yuv_w < st.yArr.length) && decide (x1 + y * yuv_w < st.yArr.length)
      && decide ((x >>> 1) + y * uvS < st.uArr.length)
      && decide ((x >>> 1) + y * uvS < st.vArr.length) }

/-- The 4:2:2 double loop: `y` steps by 1, `x` steps by 2 while `x < w`. -/
def conv422 (img : RasterImage) (yuv_w uvS : Nat) (st : ConvSt) : ConvSt :=
  (List.range img.h).foldl (fun s y =>
    (List.range ((img.w + 1) / 2)).foldl (fun t bi =>
      block422 img yuv_w uvS (2 * bi) y t) s) st

/-- `image.YCbCrSubsampleRatio` values of Go's image package. -/
inductive ChromaFormat
  | r444 | r422 | r420 | r440 | r411 | r410
deriving DecidableEq

/-- The fields of `TheoraYUVbuffer` touched by the converter (widths,
heights, strides as `C.int`, plane data as byte slices). -/
structure YUVBuffer where
  yWidth : Nat
  yHeight : Nat
  yStride : Nat
  uvWidth : Nat
  uvHeight : Nat
  uvStride : Nat
  yData : List Nat
  uData : List Nat
  vData : List Nat
deriving DecidableEq

/-- Result of a `ConvertFromRasterImage` call: the Go boolean return value,
the buffer after the call, and the accumulated bounds-safety flag. -/
structure ConvResult where
  retval : Bool
  buf : YUVBuffer
  safe : Bool
deriving DecidableEq

/-- `TheoraYUVbuffer.ConvertFromRasterImage` (theora.go, lines 880–1006). -/
def convertFromRasterImage (v : YUVBuffer) (chroma_format : ChromaFormat)
    (aData : RasterImage) : ConvResult :=
  if ¬(chroma_format = ChromaFormat.r444 ∨ chroma_format = ChromaFormat.r422
      ∨ chroma_format = ChromaFormat.r420) then
    ⟨false, v, true⟩
  else
    let hh := aData.h
    let ww := aData.w
    let yuv_w := pad16 ww
    let yuv_h := pad16 hh
    let v1 := { v with yWidth := yuv_w, yHeight := yuv_h, yStride := yuv_w }
    let v2 := { v1 with
      uvWidth := if chroma_format = ChromaFormat.r444 then yuv_w else yuv_w >>> 1 }
    let v3 := { v2 with uvStride := v2.uvWidth }
    let v4 := { v3 with
      uvHeight := if chroma_format = ChromaFormat.r420 then yuv_h >>> 1 else yuv_h }
    let yuv_y := List.replicate (v4.yStride * v4.yHeight) 0
    let yuv_u := List.replicate (v4.uvStride * v4.uvHeight) 0
    let yuv_v := List.replicate (v4.uvStride * v4.uvHeight) 0
    let st0 : ConvSt := ⟨yuv_y, yuv_u, yuv_v, true⟩
    let st :=
      if chroma_format = ChromaFormat.r420 then conv420 aData yuv_w v4.uvStride st0
      else if chroma_format = ChromaFormat.r444 then conv444 aData yuv_w st0
      else conv422 aData yuv_w v4.uvStride st0
    ⟨true, { v4 with yData := st.yArr, uData := st.uArr, vData := st.vArr }, st.ok⟩

/-! ### Loop invariants: plane sizes are preserved and accesses in bounds -/

/-- Invariant for the 4:2:0 loop on a buffer allocated for image `img`. -/
def inv420 (img : RasterImage) (st : ConvSt) : Prop :=
  st.yArr.length = pad16 img.w * pad16 img.h ∧
  st.uArr.length = (pad16 img.w >>> 1) * (pad16 img.h >>> 1) ∧
  st.vArr.length = (pad16 img.w >>> 1) * (pad16 img.h >>> 1) ∧
  st.ok = true

/-- Invariant for the 4:2:2 loop. -/
def inv422 (img : RasterImage) (st : ConvSt) : Prop :=
  st.yArr.length = pad16 img.w * pad16 img.h ∧
  st.uArr.length = (pad16 img.w >>> 1) * pad16 img.h ∧
  st.vArr.length = (pad16 img.w >>> 1) * pad16 img.h ∧
  st.ok = true

/-- Invariant for the 4:4:4 loop. -/
def inv444 (img : RasterImage) (st : ConvSt) : Prop :=
  st.yArr.length = pad16 img.w * pad16 img.h ∧
  st.uArr.length = pad16 img.w * pad16 img.h ∧
  st.vArr.length = pad16 img.w * pad16 img.h ∧
  st.ok = true

/-! ### Unfolding the converter at each concrete format -/

/-- Initial 4:2:0 conversion state: freshly zero-allocated planes. -/
def st0420 (img : RasterImage) : ConvSt :=
  ⟨List.replicate (pad16 img.w * pad16 img.h) 0,
   List.replicate ((pad16 img.w >>> 1) * (pad16 img.h >>> 1)) 0,
   List.replicate ((pad16 img.w >>> 1) * (pad16 img.h >>> 1)) 0, true⟩

def st0422 (img : RasterImage) : ConvSt :=
  ⟨List.replicate (pad16 img.w * pad16 img.h) 0,
   List.replicate ((pad16 img.w >>> 1) * pad16 img.h) 0,
   List.replicate ((pad16 img.w >>> 1) * pad16 img.h) 0, true⟩

def st0444 (img : RasterImage) : ConvSt :=
  ⟨List.replicate (pad16 img.w * pad16 img.h) 0,
   List.replicate (pad16 img.w * pad16 img.h) 0,
   List.replicate (pad16 img.w * pad16 img.h) 0, true⟩

/-- A yuv buffer with no fields set, as after `NewTheoraYUVbuffer` (calloc). -/
def emptyBuf : YUVBuffer := ⟨0, 0, 0, 0, 0, 0, [], [], []⟩

/-- A 1×1 test image. -/
def onePix : RasterImage := ⟨1, 1, fun _ _ => ⟨10, 20, 30⟩⟩

/-! ### Spec-side chroma formulas (exact integer contributions) -/

/-- BT.601 chroma-U contribution of one pixel as an exact integer,
`29032005 - 33488*r - 65744*g + 99232*b`. -/
def specContribU (c : NRGBA) : Int :=
  29032005 - 33488 * (c.r : Int) - 65744 * (c.g : Int) + 99232 * (c.b : Int)

/-- BT.601 chroma-V contribution of one pixel as an exact integer,
`157024*r - 131488*g - 25536*b + 45940035`. -/
def specContribV (c : NRGBA) : Int :=
  157024 * (c.r : Int) - 131488 * (c.g : Int) - 25536 * (c.b : Int) + 45940035

/-- Modelled from the spec §4.1 (amended by C2's counterexample): the 4:2:0
chroma-U sample for the 2×2 block whose top-left luma position is (x, y) —
each of the four pixel contributions is integer-divided by 4, the quotients
are summed, divided by 225930, and clamped to [0, 255]; at the right/bottom
edge the second sample coordinate is clamped to the last valid column/row. -/
def specU420 (img : RasterImage) (x y : Nat) : Nat :=
  let x1 := if x + 1 < img.w then x + 1 else x
  let y1 := if y + 1 < img.h then y + 1 else y
  clamp (((specContribU (nrgb img x y)).toNat / 4 + (specContribU (nrgb img x1 y)).toNat / 4 +
    (specContribU (nrgb img x y1)).toNat / 4 + (specContribU (nrgb img x1 y1)).toNat / 4)
    / 225930)

/-- Modelled from the spec §4.1 (amended): the 4:2:0 chroma-V sample. -/
def specV420 (img : RasterImage) (x y : Nat) : Nat :=
  let x1 := if x + 1 < img.w then x + 1 else x
  let y1 := if y + 1 < img.h then y + 1 else y
  clamp (((specContribV (nrgb img x y)).toNat / 4 + (specContribV (nrgb img x1 y)).toNat / 4 +
    (specContribV (nrgb img x y1)).toNat / 4 + (specContribV (nrgb img x1 y1)).toNat / 4)
    / 357510)

/-- Modelled from the spec §4.1 (amended): the 4:2:2 chroma-U sample for the
2×1 block at (x, y) — both contributions divided by 2, summed, divided by
225930, clamped. -/
def specU422 (img : RasterImage) (x y : Nat) : Nat :=
  let x1 := if x + 1 < img.w then x + 1 else x
  clamp (((specContribU (nrgb img x y)).toNat / 2 + (specContribU (nrgb img x1 y)).toNat / 2)
    / 225930)

/-- Modelled from the spec §4.1 (amended): the 4:2:2 chroma-V sample. -/
def specV422 (img : RasterImage) (x y : Nat) : Nat :=
  let x1 := if x + 1 < img.w then x + 1 else x
  clamp (((specContribV (nrgb img x y)).toNat / 2 + (specContribV (nrgb img x1 y)).toNat / 2)
    / 357510)

/-- Modelled from the spec §4.1: the 4:4:4 chroma-U sample of pixel (x, y) —
no averaging, one contribution divided by 225930 and clamped. -/
def specU444 (img : RasterImage) (x y : Nat) : Nat :=
  clamp ((specContribU (nrgb img x y)).toNat / 225930)

/-- Modelled from the spec §4.1: the 4:4:4 chroma-V sample of pixel (x, y). -/
def specV444 (img : RasterImage) (x y : Nat) : Nat :=
  clamp ((specContribV (nrgb img x y)).toNat / 357510)

/-- A 2×2 image of the solid color (208, 0, 236). -/
def teal2x2 : RasterImage := ⟨2, 2, fun _ _ => ⟨208, 0, 236⟩⟩

/-- A 17×15 image of the solid color (255, 0, 0). -/
def red17x15 : RasterImage := ⟨17, 15, fun _ _ => ⟨255, 0, 0⟩⟩

/-! ### `TheoraInfo` boolean setters and getters -/

/-- The `theora_info` fields behind the boolean setters (C `int`s). -/
structure TheoraInfo where
  dropframes_p : Int
  keyframe_auto_p : Int
  quick_p : Int
deriving DecidableEq

/-- `TheoraInfo.SetDropFrames`: true stores 0, false stores 1. -/
def setDropFrames (v : TheoraInfo) (AValue : Bool) : TheoraInfo :=
  if AValue then { v with dropframes_p := 0 } else { v with dropframes_p := 1 }

/-- `TheoraInfo.GetDropFrames`: `dropframes_p > 0`. -/
def getDropFrames (v : TheoraInfo) : Bool := decide (v.dropframes_p > 0)

/-- `TheoraInfo.SetKeyframeAuto`: true stores 0, false stores 1. -/
def setKeyframeAuto (v : TheoraInfo) (AValue : Bool) : TheoraInfo :=
  if AValue then { v with keyframe_auto_p := 0 } else { v with keyframe_auto_p := 1 }

/-- `TheoraInfo.GetKeyframeAuto`: `keyframe_auto_p > 0`. -/
def getKeyframeAuto (v : TheoraInfo) : Bool := decide (v.keyframe_auto_p > 0)

/-- `TheoraInfo.SetQuick`: true stores 1, false stores 0. -/
def setQuick (v : TheoraInfo) (AValue : Bool) : TheoraInfo :=
  if AValue then { v with quick_p := 1 } else { v with quick_p := 0 }

/-- `TheoraInfo.GetQuick`: `quick_p > 0`. -/
def getQuick (v : TheoraInfo) : Bool := decide (v.quick_p > 0)

/-! ### `TheoraEncoder.PacketOut` status dispatch -/

/-- The error values `PacketOut` can return (`none` models a nil Go error). -/
inductive EncError
  | completedExc
  | notReadyExc
  | theoraExc (r : Int)
deriving DecidableEq

/-- `TheoraEncoder.PacketOut`: dispatch on the status code returned by
`theora_encode_packetout`; `last_p` is only forwarded to the engine. -/
def packetOut (_last_p : Bool) (R : Int) : Option EncError :=
  if R = 1 then none
  else if R = -1 then some EncError.completedExc
  else if R = 0 then some EncError.notReadyExc
  else some (EncError.theoraExc R)

/-! ### `TheoraEncoder.Flush` and `Close` -/

/-- The ogg stream field of `TheoraEncoder`: `some` while live, `none` after
`Close` has set `v.foggs = nil`. -/
structure TheoraEncoderSt where
  foggs : Option Unit
deriving DecidableEq

/-- Outcome of a Go call that may fault: invoking a method on the nil
`foggs` interface value panics with a nil-pointer dereference. -/
inductive GoResult (α : Type)
  | ok (a : α)
  | goError
  | nilFault
deriving DecidableEq

/-- `TheoraEncoder.Flush`: `return v.foggs.PagesFlushToStream(v.fwriter)` —
called on a nil `foggs` interface this faults; otherwise the external flush
either errors (`flushErr`) or succeeds. -/
def encFlush (flushErr : Bool) (v : TheoraEncoderSt) : GoResult Unit :=
  match v.foggs with
  | none => GoResult.nilFault
  | some _ => if flushErr then GoResult.goError else GoResult.ok ()

/-- `TheoraEncoder.Close`: flush first (early-returning its error), then
release and nil the ogg stream state. -/
def encClose (flushErr : Bool) (v : TheoraEncoderSt) : GoResult TheoraEncoderSt :=
  match encFlush flushErr v with
  | GoResult.nilFault => GoResult.nilFault
  | GoResult.goError => GoResult.goError
  | GoResult.ok _ => GoResult.ok ⟨none⟩

/-! ### `TheoraEncoder.SaveCustomHeadersToStream` sequencing -/

/-- The three header packets the codec engine can produce. -/
inductive HdrPacket
  | ident
  | comm
  | setup
deriving DecidableEq

/-- Error oracle for the eight fallible steps of `SaveCustomHeadersToStream`
(`NewPacket`, `Header`, `SavePacketToStream`, `Comment`, `PacketIn`,
`Tables`, `PacketIn`, `SavePacketToStream`); `none` means the step succeeds. -/
structure HdrOracle where
  newPacketErr : Option Int
  headerErr : Option Int
  savePacket1Err : Option Int
  commentErr : Option Int
  packetIn1Err : Option Int
  tablesErr : Option Int
  packetIn2Err : Option Int
  savePacket2Err : Option Int

/-- First error among the steps, in program order. -/
def firstSome (l : List (Option Int)) : Option Int :=
  l.foldl (fun acc x => acc.orElse (fun _ => x)) none

/-- `TheoraEncoder.SaveCustomHeadersToStream`: runs the steps in source
order, returning at the first error; yields the list of header packets the
engine produced (in order) together with the returned error. -/
def saveCustomHeadersToStream (o : HdrOracle) : List HdrPacket × Option Int :=
  match o.newPacketErr with
  | some e => ([], some e)
  | none =>
    match o.headerErr with
    | some e => ([], some e)
    | none =>
      match o.savePacket1Err with
      | some e => ([HdrPacket.ident], some e)
      | none =>
        match o.commentErr with
        | some e => ([HdrPacket.ident], some e)
        | none =>
          match o.packetIn1Err with
          | some e => ([HdrPacket.ident, HdrPacket.comm], some e)
          | none =>
            match o.tablesErr with
            | some e => ([HdrPacket.ident, HdrPacket.comm], some e)
            | none =>
              match o.packetIn2Err with
              | some e => ([HdrPacket.ident, HdrPacket.comm, HdrPacket.setup], some e)
              | none =>
                match o.savePacket2Err with
                | some e => ([HdrPacket.ident, HdrPacket.comm, HdrPacket.setup], some e)
                | none => ([HdrPacket.ident, HdrPacket.comm, HdrPacket.setup], none)

/-! ### Theorems -/

/-! ### Arithmetic facts about the uint32 helpers -/

theorem uadd_eq_of_lt {a b : Nat} (h : a + b < W32) : uadd a b = a + b := by
  simp [uadd, Nat.mod_eq_of_lt h]

theorem uadd_lt (a b : Nat) : uadd a b < W32 := by
  have : 0 < W32 := by decide
  exact Nat.mod_lt _ this

theorem usub_lt (a b : Nat) : usub a b < W32 := by
  have : 0 < W32 := by decide
  exact Nat.mod_lt _ this

theorem umul_lt (a b : Nat) : umul a b < W32 := by
  have : 0 < W32 := by decide
  exact Nat.mod_lt _ this

theorem umul_eq_of_lt {a b : Nat} (h : a * b < W32) : umul a b = a * b := by
  simp [umul, Nat.mod_eq_of_lt h]

/-- The padded dimension is the input rounded up to a multiple of 16,
provided `v + 15` does not overflow `uint32`. -/
theorem pad16_eq {v : Nat} (h : v + 15 < W32) : pad16 v = (v + 15) / 16 * 16 := by
  unfold pad16
  rw [Nat.mod_eq_of_lt h]
  set x := v + 15 with hx
  have hmask : (0xfffffff0 : Nat) = (2 ^ 28 - 1) <<< 4 := by decide
  have hxd : x / 16 * 16 = (x >>> 4) <<< 4 := by
    simp [Nat.shiftLeft_eq, Nat.shiftRight_eq_div_pow]
  rw [hxd, hmask]
  apply Nat.eq_of_testBit_eq
  intro i
  simp only [Nat.testBit_and, Nat.testBit_shiftLeft, Nat.testBit_shiftRight,
    Nat.testBit_two_pow_sub_one]
  rcases Nat.lt_or_ge i 4 with hi | hi
  · have : ¬ 4 ≤ i := by omega
    simp [this]
  · have h4 : 4 ≤ i := hi
    simp only [ge_iff_le, h4, decide_eq_true_eq, Bool.true_and, decide_eq_true h4]
    have hplus : 4 + (i - 4) = i := by omega
    rw [hplus]
    rcases Nat.lt_or_ge i 32 with h32 | h32
    · have : i - 4 < 28 := by omega
      simp [this]
    · have hxlt : x < 2 ^ i := by
        have h2i : (2 ^ 32 : Nat) ≤ 2 ^ i := Nat.pow_le_pow_right (by decide) h32
        have hW : W32 = 2 ^ 32 := by decide
        omega
      have h1 : x.testBit i = false := Nat.testBit_lt_two_pow hxlt
      have h28 : ¬ (i - 4 < 28) := by omega
      simp [h1, h28]

theorem pad16_ge {v : Nat} (h : v + 15 < W32) : v ≤ pad16 v := by
  rw [pad16_eq h]
  omega

theorem pad16_mod16 {v : Nat} (h : v + 15 < W32) : pad16 v % 16 = 0 := by
  rw [pad16_eq h]
  omega

/-! ### Generic lemmas about folds of indexed writes -/

theorem foldl_inv {α β : Type} (P : β → Prop) (f : β → α → β) (l : List α)
    (hstep : ∀ st x, x ∈ l → P st → P (f st x)) (st : β) (hst : P st) :
    P (l.foldl f st) := by
  induction l generalizing st with
  | nil => exact hst
  | cons a t ih =>
    exact ih (fun s x hx hs => hstep s x (List.mem_cons_of_mem a hx) hs) _
      (hstep st a (List.mem_cons_self a t) hst)

theorem foldl_set_length (e f : Nat → Nat) (a0 : List Nat) (l : List Nat) :
    (l.foldl (fun a k => a.set (e k) (f k)) a0).length = a0.length :=
  foldl_inv (fun a => a.length = a0.length) (fun a k => a.set (e k) (f k)) l
    (fun _ _ _ hst => by simpa using hst) a0 rfl

/-- After a run of `List.set` writes at indices `e 0, …, e (n-1)`, position
`e i` holds `f i`, provided the indices are injective and in range. -/
theorem foldl_set_getD_hit (e f : Nat → Nat) (a0 : List Nat) (n : Nat)
    (hinj : ∀ i j, i < n → j < n → e i = e j → i = j)
    (hlt : ∀ i, i < n → e i < a0.length) :
    ∀ i, i < n →
      ((List.range n).foldl (fun a k => a.set (e k) (f k)) a0).getD (e i) 0 = f i := by
  induction n with
  | zero => intro i hi; omega
  | succ m ih =>
    intro i hi
    rw [List.range_succ, List.foldl_append]
    simp only [List.foldl_cons, List.foldl_nil]
    have hlen : ((List.range m).foldl (fun a k => a.set (e k) (f k)) a0).length
        = a0.length := foldl_set_length e f a0 _
    rcases Nat.lt_or_ge i m with him | him
    · have hne : e m ≠ e i := by
        intro hcontra
        have := hinj m i (Nat.lt_succ_self m) (Nat.lt_succ_of_lt him) hcontra
        omega
      rw [List.getD_eq_getElem?_getD, List.getElem?_set_ne hne,
        ← List.getD_eq_getElem?_getD]
      exact ih (fun a b ha hb hab => hinj a b (Nat.lt_succ_of_lt ha) (Nat.lt_succ_of_lt hb) hab)
        (fun a ha => hlt a (Nat.lt_succ_of_lt ha)) i him
    · have him' : i = m := by omega
      subst him'
      have hei : e i < ((List.range i).foldl (fun a k => a.set (e k) (f k)) a0).length := by
        rw [hlen]
        exact hlt i hi
      rw [List.getD_eq_getElem?_getD, List.getElem?_set_self hei]
      rfl

/-- Positions not among the written indices are untouched by the run. -/
theorem foldl_set_getD_miss (e f : Nat → Nat) (a0 : List Nat) (n : Nat) (q : Nat)
    (hq : ∀ i, i < n → e i ≠ q) :
    ((List.range n).foldl (fun a k => a.set (e k) (f k)) a0).getD q 0 = a0.getD q 0 := by
  induction n with
  | zero => rfl
  | succ m ih =>
    rw [List.range_succ, List.foldl_append]
    simp only [List.foldl_cons, List.foldl_nil]
    rw [List.getD_eq_getElem?_getD, List.getElem?_set_ne (hq m (Nat.lt_succ_self m)),
      ← List.getD_eq_getElem?_getD]
    exact ih (fun a ha => hq a (Nat.lt_succ_of_lt ha))

theorem nested_set_length (e f : Nat → Nat → Nat) (a0 : List Nat) (n m : Nat) :
    ((List.range n).foldl (fun a bj =>
      (List.range m).foldl (fun a bi => a.set (e bj bi) (f bj bi)) a) a0).length
      = a0.length :=
  foldl_inv (fun a => a.length = a0.length)
    (fun a bj => (List.range m).foldl (fun a bi => a.set (e bj bi) (f bj bi)) a)
    (List.range n)
    (fun st bj _ hst => by
      show (List.foldl (fun a bi => a.set (e bj bi) (f bj bi)) st (List.range m)).length
        = a0.length
      rw [foldl_set_length (e bj) (f bj) st (List.range m)]
      exact hst) a0 rfl

/-- The nested row/column fold of writes: position `e bj bi` ends up holding
`f bj bi` when the index map is injective on the grid and in range. -/
theorem nested_set_getD (e f : Nat → Nat → Nat) (a0 : List Nat) (n m : Nat)
    (hinj : ∀ bj bi bj' bi', bj < n → bi < m → bj' < n → bi' < m →
      e bj bi = e bj' bi' → bj = bj' ∧ bi = bi')
    (hlt : ∀ bj bi, bj < n → bi < m → e bj bi < a0.length) :
    ∀ bj bi, bj < n → bi < m →
      ((List.range n).foldl (fun a bj =>
        (List.range m).foldl (fun a bi => a.set (e bj bi) (f bj bi)) a) a0).getD
        (e bj bi) 0 = f bj bi := by
  induction n with
  | zero => intro bj bi hj hi; omega
  | succ N ih =>
    intro bj bi hj hi
    rw [List.range_succ, List.foldl_append]
    simp only [List.foldl_cons, List.foldl_nil]
    have hlenp : ((List.range N).foldl (fun a bj =>
        (List.range m).foldl (fun a bi => a.set (e bj bi) (f bj bi)) a) a0).length
        = a0.length := nested_set_length e f a0 N m
    rcases Nat.lt_or_ge bj N with hjN | hjN
    · rw [foldl_set_getD_miss]
      · exact ih (fun a b a' b' ha hb ha' hb' hab =>
          hinj a b a' b' (Nat.lt_succ_of_lt ha) hb (Nat.lt_succ_of_lt ha') hb' hab)
          (fun a b ha hb => hlt a b (Nat.lt_succ_of_lt ha) hb) bj bi hjN hi
      · intro i hi' hcontra
        have := hinj N i bj bi (Nat.lt_succ_self N) hi' (Nat.lt_succ_of_lt hjN) hi hcontra
        omega
    · have hjN' : bj = N := by omega
      subst hjN'
      rw [foldl_set_getD_hit (fun i => e bj i) (fun i => f bj i) _ m]
      · intro a b ha hb hab
        exact (hinj bj a bj b hj ha hj hb hab).2
      · intro a ha
        rw [hlenp]
        exact hlt bj a hj ha
      · exact hi

/-! ### Index arithmetic -/

theorem idx_lt {a s b t : Nat} (ha : a < s) (hb : b < t) : a + b * s < s * t := by
  calc a + b * s < s + b * s := by omega
    _ = (b + 1) * s := by ring
    _ ≤ t * s := Nat.mul_le_mul_right s hb
    _ = s * t := Nat.mul_comm t s

theorem idx_inj {a s b a' b' : Nat} (ha : a < s) (ha' : a' < s)
    (heq : a + b * s = a' + b' * s) : a = a' ∧ b = b' := by
  have hmod : (a + b * s) % s = (a' + b' * s) % s := by rw [heq]
  rw [Nat.add_mul_mod_self_right, Nat.add_mul_mod_self_right,
    Nat.mod_eq_of_lt ha, Nat.mod_eq_of_lt ha'] at hmod
  subst hmod
  have hb : b * s = b' * s := by omega
  have hs : 0 < s := by omega
  exact ⟨rfl, Nat.eq_of_mul_eq_mul_right hs hb⟩

theorem ceil_half_le {a m : Nat} (h : a ≤ m) (hm : m % 2 = 0) :
    (a + 1) / 2 ≤ m / 2 := by omega

theorem two_mul_shiftRight (n : Nat) : (2 * n) >>> 1 = n := by
  rw [Nat.shiftRight_one]
  omega

/-- The clamped second sample coordinate stays inside the image. -/
theorem x1_lt {x w : Nat} (hx : x < w) : x + booltoint (decide (x + 1 < w)) < w := by
  unfold booltoint
  by_cases h : x + 1 < w
  · simp [h]
  · simpa [h] using hx

theorem ceilhalf_le_pad16_half {w : Nat} (hw : w + 15 < W32) :
    (w + 1) / 2 ≤ pad16 w >>> 1 := by
  rw [Nat.shiftRight_one]
  have h1 := pad16_ge hw
  have h2 := pad16_mod16 hw
  omega

theorem block420_pres (img : RasterImage) (hw : img.w + 15 < W32)
    (hh : img.h + 15 < W32) (bi bj : Nat)
    (hbi : bi < (img.w + 1) / 2) (hbj : bj < (img.h + 1) / 2) (st : ConvSt)
    (hP : inv420 img st) :
    inv420 img (block420 img (pad16 img.w) (pad16 img.w >>> 1) (2 * bi) (2 * bj) st) := by
  obtain ⟨hy, hu, hv, hok⟩ := hP
  have hxw : 2 * bi < img.w := by omega
  have hyh : 2 * bj < img.h := by omega
  have hx1w : 2 * bi + booltoint (decide (2 * bi + 1 < img.w)) < img.w := x1_lt hxw
  have hy1h : 2 * bj + booltoint (decide (2 * bj + 1 < img.h)) < img.h := x1_lt hyh
  have hwp : img.w ≤ pad16 img.w := pad16_ge hw
  have hhp : img.h ≤ pad16 img.h := pad16_ge hh
  have hbiu : bi < pad16 img.w >>> 1 := Nat.lt_of_lt_of_le hbi (ceilhalf_le_pad16_half hw)
  have hbju : bj < pad16 img.h >>> 1 := Nat.lt_of_lt_of_le hbj (ceilhalf_le_pad16_half hh)
  have hi0 : 2 * bi + 2 * bj * pad16 img.w < st.yArr.length := by
    rw [hy]; exact idx_lt (by omega) (by omega)
  have hi1 : 2 * bi + booltoint (decide (2 * bi + 1 < img.w)) + 2 * bj * pad16 img.w
      < st.yArr.length := by
    rw [hy]; exact idx_lt (by omega) (by omega)
  have hi2 : 2 * bi + (2 * bj + booltoint (decide (2 * bj + 1 < img.h))) * pad16 img.w
      < st.yArr.length := by
    rw [hy]; exact idx_lt (by omega) (by omega)
  have hi3 : 2 * bi + booltoint (decide (2 * bi + 1 < img.w))
      + (2 * bj + booltoint (decide (2 * bj + 1 < img.h))) * pad16 img.w
      < st.yArr.length := by
    rw [hy]; exact idx_lt (by omega) (by omega)
  have hicu : bi + bj * (pad16 img.w >>> 1) < st.uArr.length := by
    rw [hu]; exact idx_lt hbiu hbju
  have hicv : bi + bj * (pad16 img.w >>> 1) < st.vArr.length := by
    rw [hv]; exact idx_lt hbiu hbju
  refine ⟨?_, ?_, ?_, ?_⟩
  · simp [block420, List.length_set, hy]
  · simp [block420, List.length_set, hu]
  · simp [block420, List.length_set, hv]
  · show (block420 img (pad16 img.w) (pad16 img.w >>> 1) (2 * bi) (2 * bj) st).ok = true
    simp only [block420, rdOk]
    rw [two_mul_shiftRight bi, two_mul_shiftRight bj]
    simp only [hok, Bool.true_and, Bool.and_eq_true, decide_eq_true_eq]
    exact ⟨⟨⟨⟨⟨⟨⟨⟨⟨⟨hxw, hyh⟩, hx1w, hyh⟩, hxw, hy1h⟩, hx1w, hy1h⟩,
      hi0⟩, hi1⟩, hi2⟩, hi3⟩, hicu⟩, hicv⟩

theorem conv420_invariant (img : RasterImage) (hw : img.w + 15 < W32)
    (hh : img.h + 15 < W32) (st : ConvSt) (hP : inv420 img st) :
    inv420 img (conv420 img (pad16 img.w) (pad16 img.w >>> 1) st) := by
  unfold conv420
  apply foldl_inv (inv420 img) _ _ ?_ _ hP
  intro s bj hbj hs
  have hbj' : bj < (img.h + 1) / 2 := List.mem_range.mp hbj
  apply foldl_inv (inv420 img) _ _ ?_ _ hs
  intro t bi hbi ht
  have hbi' : bi < (img.w + 1) / 2 := List.mem_range.mp hbi
  exact block420_pres img hw hh bi bj hbi' hbj' t ht

theorem block422_pres (img : RasterImage) (hw : img.w + 15 < W32)
    (hh : img.h + 15 < W32) (bi y : Nat)
    (hbi : bi < (img.w + 1) / 2) (hy : y < img.h) (st : ConvSt)
    (hP : inv422 img st) :
    inv422 img (block422 img (pad16 img.w) (pad16 img.w >>> 1) (2 * bi) y st) := by
  obtain ⟨hya, hu, hv, hok⟩ := hP
  have hxw : 2 * bi < img.w := by omega
  have hx1w : 2 * bi + booltoint (decide (2 * bi + 1 < img.w)) < img.w := x1_lt hxw
  have hwp : img.w ≤ pad16 img.w := pad16_ge hw
  have hhp : img.h ≤ pad16 img.h := pad16_ge hh
  have hbiu : bi < pad16 img.w >>> 1 := Nat.lt_of_lt_of_le hbi (ceilhalf_le_pad16_half hw)
  have hi0 : 2 * bi + y * pad16 img.w < st.yArr.length := by
    rw [hya]; exact idx_lt (by omega) (by omega)
  have hi1 : 2 * bi + booltoint (decide (2 * bi + 1 < img.w)) + y * pad16 img.w
      < st.yArr.length := by
    rw [hya]; exact idx_lt (by omega) (by omega)
  have hicu : bi + y * (pad16 img.w >>> 1) < st.uArr.length := by
    rw [hu]; exact idx_lt hbiu (by omega)
  have hicv : bi + y * (pad16 img.w >>> 1) < st.vArr.length := by
    rw [hv]; exact idx_lt hbiu (by omega)
  refine ⟨?_, ?_, ?_, ?_⟩
  · simp [block422, List.length_set, hya]
  · simp [block422, List.length_set, hu]
  · simp [block422, List.length_set, hv]
  · show (block422 img (pad16 img.w) (pad16 img.w >>> 1) (2 * bi) y st).ok = true
    simp only [block422, rdOk]
    rw [two_mul_shiftRight bi]
    simp only [hok, Bool.true_and, Bool.and_eq_true, decide_eq_true_eq]
    exact ⟨⟨⟨⟨⟨⟨hxw, hy⟩, hx1w, hy⟩, hi0⟩, hi1⟩, hicu⟩, hicv⟩

theorem conv422_invariant (img : RasterImage) (hw : img.w + 15 < W32)
    (hh : img.h + 15 < W32) (st : ConvSt) (hP : inv422 img st) :
    inv422 img (conv422 img (pad16 img.w) (pad16 img.w >>> 1) st) := by
  unfold conv422
  apply foldl_inv (inv422 img) _ _ ?_ _ hP
  intro s y hy hs
  have hy' : y < img.h := List.mem_range.mp hy
  apply foldl_inv (inv422 img) _ _ ?_ _ hs
  intro t bi hbi ht
  have hbi' : bi < (img.w + 1) / 2 := List.mem_range.mp hbi
  exact block422_pres img hw hh bi y hbi' hy' t ht

theorem pix444_pres (img : RasterImage) (hw : img.w + 15 < W32)
    (hh : img.h + 15 < W32) (x y : Nat)
    (hx : x < img.w) (hy : y < img.h) (st : ConvSt) (hP : inv444 img st) :
    inv444 img (pix444 img (pad16 img.w) x y st) := by
  obtain ⟨hya, hu, hv, hok⟩ := hP
  have hwp : img.w ≤ pad16 img.w := pad16_ge hw
  have hhp : img.h ≤ pad16 img.h := pad16_ge hh
  have hi0 : x + y * pad16 img.w < st.yArr.length := by
    rw [hya]; exact idx_lt (by omega) (by omega)
  have hiu : x + y * pad16 img.w < st.uArr.length := by
    rw [hu]; exact idx_lt (by omega) (by omega)
  have hiv : x + y * pad16 img.w < st.vArr.length := by
    rw [hv]; exact idx_lt (by omega) (by omega)
  refine ⟨?_, ?_, ?_, ?_⟩
  · simp [pix444, List.length_set, hya]
  · simp [pix444, List.length_set, hu]
  · simp [pix444, List.length_set, hv]
  · show (pix444 img (pad16 img.w) x y st).ok = true
    simp only [pix444, rdOk]
    simp only [hok, Bool.true_and, Bool.and_eq_true, decide_eq_true_eq]
    exact ⟨⟨⟨⟨hx, hy⟩, hi0⟩, hiu⟩, hiv⟩

theorem conv444_invariant (img : RasterImage) (hw : img.w + 15 < W32)
    (hh : img.h + 15 < W32) (st : ConvSt) (hP : inv444 img st) :
    inv444 img (conv444 img (pad16 img.w) st) := by
  unfold conv444
  apply foldl_inv (inv444 img) _ _ ?_ _ hP
  intro s y hy hs
  have hy' : y < img.h := List.mem_range.mp hy
  apply foldl_inv (inv444 img) _ _ ?_ _ hs
  intro t x hx ht
  have hx' : x < img.w := List.mem_range.mp hx
  exact pix444_pres img hw hh x y hx' hy' t ht

theorem convert420_eq (buf : YUVBuffer) (img : RasterImage) :
    convertFromRasterImage buf ChromaFormat.r420 img =
      ⟨true,
       { yWidth := pad16 img.w, yHeight := pad16 img.h, yStride := pad16 img.w,
         uvWidth := pad16 img.w >>> 1, uvHeight := pad16 img.h >>> 1,
         uvStride := pad16 img.w >>> 1,
         yData := (conv420 img (pad16 img.w) (pad16 img.w >>> 1) (st0420 img)).yArr,
         uData := (conv420 img (pad16 img.w) (pad16 img.w >>> 1) (st0420 img)).uArr,
         vData := (conv420 img (pad16 img.w) (pad16 img.w >>> 1) (st0420 img)).vArr },
       (conv420 img (pad16 img.w) (pad16 img.w >>> 1) (st0420 img)).ok⟩ := rfl

theorem convert422_eq (buf : YUVBuffer) (img : RasterImage) :
    convertFromRasterImage buf ChromaFormat.r422 img =
      ⟨true,
       { yWidth := pad16 img.w, yHeight := pad16 img.h, yStride := pad16 img.w,
         uvWidth := pad16 img.w >>> 1, uvHeight := pad16 img.h,
         uvStride := pad16 img.w >>> 1,
         yData := (conv422 img (pad16 img.w) (pad16 img.w >>> 1) (st0422 img)).yArr,
         uData := (conv422 img (pad16 img.w) (pad16 img.w >>> 1) (st0422 img)).uArr,
         vData := (conv422 img (pad16 img.w) (pad16 img.w >>> 1) (st0422 img)).vArr },
       (conv422 img (pad16 img.w) (pad16 img.w >>> 1) (st0422 img)).ok⟩ := rfl

theorem convert444_eq (buf : YUVBuffer) (img : RasterImage) :
    convertFromRasterImage buf ChromaFormat.r444 img =
      ⟨true,
       { yWidth := pad16 img.w, yHeight := pad16 img.h, yStride := pad16 img.w,
         uvWidth := pad16 img.w, uvHeight := pad16 img.h,
         uvStride := pad16 img.w,
         yData := (conv444 img (pad16 img.w) (st0444 img)).yArr,
         uData := (conv444 img (pad16 img.w) (st0444 img)).uArr,
         vData := (conv444 img (pad16 img.w) (st0444 img)).vArr },
       (conv444 img (pad16 img.w) (st0444 img)).ok⟩ := rfl

theorem st0420_inv (img : RasterImage) : inv420 img (st0420 img) :=
  ⟨by simp [st0420], by simp [st0420], by simp [st0420], rfl⟩

theorem st0422_inv (img : RasterImage) : inv422 img (st0422 img) :=
  ⟨by simp [st0422], by simp [st0422], by simp [st0422], rfl⟩

theorem st0444_inv (img : RasterImage) : inv444 img (st0444 img) :=
  ⟨by simp [st0444], by simp [st0444], by simp [st0444], rfl⟩

/-- C1: for every input image and every chroma format in {4:2:0, 4:2:2, 4:4:4},
a successful `ConvertFromRasterImage` sets the luma width, stride and height to
the input dimensions rounded up to the next multiple of 16, sets
`UVWidth = YWidth` for 4:4:4 and `YWidth/2` otherwise, sets
`UVHeight = YHeight/2` for 4:2:0 and `YHeight` otherwise, and allocates exactly
`stride * height` bytes per plane. -/
theorem c1_plane_sizing (buf : YUVBuffer) (fmt : ChromaFormat) (img : RasterImage)
    (hfmt : fmt = ChromaFormat.r420 ∨ fmt = ChromaFormat.r422 ∨ fmt = ChromaFormat.r444)
    (hw : img.w + 15 < W32) (hh : img.h + 15 < W32) :
    (convertFromRasterImage buf fmt img).retval = true ∧
    (convertFromRasterImage buf fmt img).buf.yWidth = (img.w + 15) / 16 * 16 ∧
    (convertFromRasterImage buf fmt img).buf.yStride = (img.w + 15) / 16 * 16 ∧
    (convertFromRasterImage buf fmt img).buf.yHeight = (img.h + 15) / 16 * 16 ∧
    (convertFromRasterImage buf fmt img).buf.uvWidth =
      (if fmt = ChromaFormat.r444 then (img.w + 15) / 16 * 16
       else (img.w + 15) / 16 * 16 / 2) ∧
    (convertFromRasterImage buf fmt img).buf.uvStride =
      (convertFromRasterImage buf fmt img).buf.uvWidth ∧
    (convertFromRasterImage buf fmt img).buf.uvHeight =
      (if fmt = ChromaFormat.r420 then (img.h + 15) / 16 * 16 / 2
       else (img.h + 15) / 16 * 16) ∧
    (convertFromRasterImage buf fmt img).buf.yData.length =
      (convertFromRasterImage buf fmt img).buf.yStride *
        (convertFromRasterImage buf fmt img).buf.yHeight ∧
    (convertFromRasterImage buf fmt img).buf.uData.length =
      (convertFromRasterImage buf fmt img).buf.uvStride *
        (convertFromRasterImage buf fmt img).buf.uvHeight ∧
    (convertFromRasterImage buf fmt img).buf.vData.length =
      (convertFromRasterImage buf fmt img).buf.uvStride *
        (convertFromRasterImage buf fmt img).buf.uvHeight := by
  have hps := pad16_eq hw
  have hph := pad16_eq hh
  rcases hfmt with h | h | h
  · subst h
    obtain ⟨hy, hu, hv, hok⟩ := conv420_invariant img hw hh (st0420 img) (st0420_inv img)
    rw [convert420_eq]
    refine ⟨rfl, ?_, ?_, ?_, ?_, rfl, ?_, ?_, ?_, ?_⟩ <;>
      simp only [hy, hu, hv] <;> simp [hps, hph, Nat.shiftRight_one]
  · subst h
    obtain ⟨hy, hu, hv, hok⟩ := conv422_invariant img hw hh (st0422 img) (st0422_inv img)
    rw [convert422_eq]
    refine ⟨rfl, ?_, ?_, ?_, ?_, rfl, ?_, ?_, ?_, ?_⟩ <;>
      simp only [hy, hu, hv] <;> simp [hps, hph, Nat.shiftRight_one]
  · subst h
    obtain ⟨hy, hu, hv, hok⟩ := conv444_invariant img hw hh (st0444 img) (st0444_inv img)
    rw [convert444_eq]
    refine ⟨rfl, ?_, ?_, ?_, ?_, rfl, ?_, ?_, ?_, ?_⟩ <;>
      simp only [hy, hu, hv] <;> simp [hps, hph, Nat.shiftRight_one]

/-- Witness for C1 at a concrete 1×1 image converted at 4:2:0. -/
theorem c1_plane_sizing_witness :
    (convertFromRasterImage emptyBuf ChromaFormat.r420 onePix).retval = true ∧
    (convertFromRasterImage emptyBuf ChromaFormat.r420 onePix).buf.yWidth = 16 ∧
    (convertFromRasterImage emptyBuf ChromaFormat.r420 onePix).buf.yStride = 16 ∧
    (convertFromRasterImage emptyBuf ChromaFormat.r420 onePix).buf.yHeight = 16 ∧
    (convertFromRasterImage emptyBuf ChromaFormat.r420 onePix).buf.uvWidth = 8 ∧
    (convertFromRasterImage emptyBuf ChromaFormat.r420 onePix).buf.uvStride = 8 ∧
    (convertFromRasterImage emptyBuf ChromaFormat.r420 onePix).buf.uvHeight = 8 ∧
    (convertFromRasterImage emptyBuf ChromaFormat.r420 onePix).buf.yData.length = 256 ∧
    (convertFromRasterImage emptyBuf ChromaFormat.r420 onePix).buf.uData.length = 64 ∧
    (convertFromRasterImage emptyBuf ChromaFormat.r420 onePix).buf.vData.length = 64 := by
  have h := c1_plane_sizing emptyBuf ChromaFormat.r420 onePix (Or.inl rfl)
    (by decide) (by decide)
  exact h

/-- C4: for every buffer, image (with dimensions representable in `uint32`)
and chroma format, the conversion only samples the source inside
`[0, w) × [0, h)` — the second sample coordinate of an edge block is clamped
back into range — and every store into the Y, U, V plane slices is within
their allocated length. -/
theorem c4_memory_safety (buf : YUVBuffer) (fmt : ChromaFormat) (img : RasterImage)
    (hw : img.w + 15 < W32) (hh : img.h + 15 < W32) :
    (convertFromRasterImage buf fmt img).safe = true := by
  cases fmt with
  | r420 =>
    rw [convert420_eq]
    exact (conv420_invariant img hw hh (st0420 img) (st0420_inv img)).2.2.2
  | r422 =>
    rw [convert422_eq]
    exact (conv422_invariant img hw hh (st0422 img) (st0422_inv img)).2.2.2
  | r444 =>
    rw [convert444_eq]
    exact (conv444_invariant img hw hh (st0444 img) (st0444_inv img)).2.2.2
  | r440 => rfl
  | r411 => rfl
  | r410 => rfl

/-- Witness for C4 at a concrete 1×1 image converted at 4:2:2. -/
theorem c4_memory_safety_witness :
    (convertFromRasterImage emptyBuf ChromaFormat.r422 onePix).safe = true :=
  c4_memory_safety emptyBuf ChromaFormat.r422 onePix (by decide) (by decide)

/-- C5: for every chroma format outside {4:2:0, 4:2:2, 4:4:4} the conversion
returns `false` leaving the buffer completely untouched, and for every format
inside the set it returns `true`. -/
theorem c5_format_gate (buf : YUVBuffer) (fmt : ChromaFormat) (img : RasterImage) :
    (¬(fmt = ChromaFormat.r444 ∨ fmt = ChromaFormat.r422 ∨ fmt = ChromaFormat.r420) →
      convertFromRasterImage buf fmt img = ⟨false, buf, true⟩) ∧
    ((fmt = ChromaFormat.r444 ∨ fmt = ChromaFormat.r422 ∨ fmt = ChromaFormat.r420) →
      (convertFromRasterImage buf fmt img).retval = true) := by
  constructor
  · intro hinvalid
    unfold convertFromRasterImage
    rw [if_pos hinvalid]
  · intro hvalid
    rcases hvalid with h | h | h <;> subst h
    · rw [convert444_eq]
    · rw [convert422_eq]
    · rw [convert420_eq]

/-- Witness for C5: 4:1:0 is rejected without touching the buffer, 4:2:0 is
accepted. -/
theorem c5_format_gate_witness :
    convertFromRasterImage emptyBuf ChromaFormat.r410 onePix = ⟨false, emptyBuf, true⟩ ∧
    (convertFromRasterImage emptyBuf ChromaFormat.r420 onePix).retval = true :=
  ⟨(c5_format_gate emptyBuf ChromaFormat.r410 onePix).1 (by decide),
   (c5_format_gate emptyBuf ChromaFormat.r420 onePix).2 (Or.inr (Or.inr rfl))⟩

/-! ### Chroma plane contents: projecting the loops to plain write runs -/

theorem foldl_proj {σ : Type} (proj : σ → List Nat) (step : σ → Nat → σ)
    (g : List Nat → Nat → List Nat)
    (hstep : ∀ st k, proj (step st k) = g (proj st) k) :
    ∀ (l : List Nat) (st : σ), proj (l.foldl step st) = l.foldl g (proj st) := by
  intro l
  induction l with
  | nil => intro st; rfl
  | cons a t ih =>
    intro st
    simp only [List.foldl_cons]
    rw [ih, hstep]

theorem block420_uArr (img : RasterImage) (yuv_w uvS x y : Nat) (st : ConvSt) :
    (block420 img yuv_w uvS x y st).uArr =
      st.uArr.set ((x >>> 1) + (y >>> 1) * uvS) (u420valAt img x y) := rfl

theorem block420_vArr (img : RasterImage) (yuv_w uvS x y : Nat) (st : ConvSt) :
    (block420 img yuv_w uvS x y st).vArr =
      st.vArr.set ((x >>> 1) + (y >>> 1) * uvS) (v420valAt img x y) := rfl

theorem block422_uArr (img : RasterImage) (yuv_w uvS x y : Nat) (st : ConvSt) :
    (block422 img yuv_w uvS x y st).uArr =
      st.uArr.set ((x >>> 1) + y * uvS) (u422valAt img x y) := rfl

theorem block422_vArr (img : RasterImage) (yuv_w uvS x y : Nat) (st : ConvSt) :
    (block422 img yuv_w uvS x y st).vArr =
      st.vArr.set ((x >>> 1) + y * uvS) (v422valAt img x y) := rfl

theorem pix444_uArr (img : RasterImage) (yuv_w x y : Nat) (st : ConvSt) :
    (pix444 img yuv_w x y st).uArr =
      st.uArr.set (x + y * yuv_w) (clamp (cuAt img x y / 225930)) := rfl

theorem pix444_vArr (img : RasterImage) (yuv_w x y : Nat) (st : ConvSt) :
    (pix444 img yuv_w x y st).vArr =
      st.vArr.set (x + y * yuv_w) (clamp (cvAt img x y / 357510)) := rfl

theorem conv420_uArr (img : RasterImage) (yuv_w uvS : Nat) (st : ConvSt) :
    (conv420 img yuv_w uvS st).uArr =
      (List.range ((img.h + 1) / 2)).foldl (fun a bj =>
        (List.range ((img.w + 1) / 2)).foldl (fun a bi =>
          a.set (bi + bj * uvS) (u420valAt img (2 * bi) (2 * bj))) a) st.uArr := by
  unfold conv420
  exact foldl_proj ConvSt.uArr
    (fun s bj => (List.range ((img.w + 1) / 2)).foldl
      (fun t bi => block420 img yuv_w uvS (2 * bi) (2 * bj) t) s)
    (fun a bj => (List.range ((img.w + 1) / 2)).foldl
      (fun a bi => a.set (bi + bj * uvS) (u420valAt img (2 * bi) (2 * bj))) a)
    (fun s bj => foldl_proj ConvSt.uArr
      (fun t bi => block420 img yuv_w uvS (2 * bi) (2 * bj) t)
      (fun a bi => a.set (bi + bj * uvS) (u420valAt img (2 * bi) (2 * bj)))
      (fun t bi => by
        rw [block420_uArr, two_mul_shiftRight bi, two_mul_shiftRight bj])
      (List.range ((img.w + 1) / 2)) s)
    (List.range ((img.h + 1) / 2)) st

theorem conv420_vArr (img : RasterImage) (yuv_w uvS : Nat) (st : ConvSt) :
    (conv420 img yuv_w uvS st).vArr =
      (List.range ((img.h + 1) / 2)).foldl (fun a bj =>
        (List.range ((img.w + 1) / 2)).foldl (fun a bi =>
          a.set (bi + bj * uvS) (v420valAt img (2 * bi) (2 * bj))) a) st.vArr := by
  unfold conv420
  exact foldl_proj ConvSt.vArr
    (fun s bj => (List.range ((img.w + 1) / 2)).foldl
      (fun t bi => block420 img yuv_w uvS (2 * bi) (2 * bj) t) s)
    (fun a bj => (List.range ((img.w + 1) / 2)).foldl
      (fun a bi => a.set (bi + bj * uvS) (v420valAt img (2 * bi) (2 * bj))) a)
    (fun s bj => foldl_proj ConvSt.vArr
      (fun t bi => block420 img yuv_w uvS (2 * bi) (2 * bj) t)
      (fun a bi => a.set (bi + bj * uvS) (v420valAt img (2 * bi) (2 * bj)))
      (fun t bi => by
        rw [block420_vArr, two_mul_shiftRight bi, two_mul_shiftRight bj])
      (List.range ((img.w + 1) / 2)) s)
    (List.range ((img.h + 1) / 2)) st

theorem conv422_uArr (img : RasterImage) (yuv_w uvS : Nat) (st : ConvSt) :
    (conv422 img yuv_w uvS st).uArr =
      (List.range img.h).foldl (fun a y =>
        (List.range ((img.w + 1) / 2)).foldl (fun a bi =>
          a.set (bi + y * uvS) (u422valAt img (2 * bi) y)) a) st.uArr := by
  unfold conv422
  exact foldl_proj ConvSt.uArr
    (fun s y => (List.range ((img.w + 1) / 2)).foldl
      (fun t bi => block422 img yuv_w uvS (2 * bi) y t) s)
    (fun a y => (List.range ((img.w + 1) / 2)).foldl
      (fun a bi => a.set (bi + y * uvS) (u422valAt img (2 * bi) y)) a)
    (fun s y => foldl_proj ConvSt.uArr
      (fun t bi => block422 img yuv_w uvS (2 * bi) y t)
      (fun a bi => a.set (bi + y * uvS) (u422valAt img (2 * bi) y))
      (fun t bi => by rw [block422_uArr, two_mul_shiftRight bi])
      (List.range ((img.w + 1) / 2)) s)
    (List.range img.h) st

theorem conv422_vArr (img : RasterImage) (yuv_w uvS : Nat) (st : ConvSt) :
    (conv422 img yuv_w uvS st).vArr =
      (List.range img.h).foldl (fun a y =>
        (List.range ((img.w + 1) / 2)).foldl (fun a bi =>
          a.set (bi + y * uvS) (v422valAt img (2 * bi) y)) a) st.vArr := by
  unfold conv422
  exact foldl_proj ConvSt.vArr
    (fun s y => (List.range ((img.w + 1) / 2)).foldl
      (fun t bi => block422 img yuv_w uvS (2 * bi) y t) s)
    (fun a y => (List.range ((img.w + 1) / 2)).foldl
      (fun a bi => a.set (bi + y * uvS) (v422valAt img (2 * bi) y)) a)
    (fun s y => foldl_proj ConvSt.vArr
      (fun t bi => block422 img yuv_w uvS (2 * bi) y t)
      (fun a bi => a.set (bi + y * uvS) (v422valAt img (2 * bi) y))
      (fun t bi => by rw [block422_vArr, two_mul_shiftRight bi])
      (List.range ((img.w + 1) / 2)) s)
    (List.range img.h) st

theorem conv444_uArr (img : RasterImage) (yuv_w : Nat) (st : ConvSt) :
    (conv444 img yuv_w st).uArr =
      (List.range img.h).foldl (fun a y =>
        (List.range img.w).foldl (fun a x =>
          a.set (x + y * yuv_w) (clamp (cuAt img x y / 225930))) a) st.uArr := by
  unfold conv444
  exact foldl_proj ConvSt.uArr
    (fun s y => (List.range img.w).foldl (fun t x => pix444 img yuv_w x y t) s)
    (fun a y => (List.range img.w).foldl
      (fun a x => a.set (x + y * yuv_w) (clamp (cuAt img x y / 225930))) a)
    (fun s y => foldl_proj ConvSt.uArr
      (fun t x => pix444 img yuv_w x y t)
      (fun a x => a.set (x + y * yuv_w) (clamp (cuAt img x y / 225930)))
      (fun t x => by rw [pix444_uArr])
      (List.range img.w) s)
    (List.range img.h) st

theorem conv444_vArr (img : RasterImage) (yuv_w : Nat) (st : ConvSt) :
    (conv444 img yuv_w st).vArr =
      (List.range img.h).foldl (fun a y =>
        (List.range img.w).foldl (fun a x =>
          a.set (x + y * yuv_w) (clamp (cvAt img x y / 357510))) a) st.vArr := by
  unfold conv444
  exact foldl_proj ConvSt.vArr
    (fun s y => (List.range img.w).foldl (fun t x => pix444 img yuv_w x y t) s)
    (fun a y => (List.range img.w).foldl
      (fun a x => a.set (x + y * yuv_w) (clamp (cvAt img x y / 357510))) a)
    (fun s y => foldl_proj ConvSt.vArr
      (fun t x => pix444 img yuv_w x y t)
      (fun a x => a.set (x + y * yuv_w) (clamp (cvAt img x y / 357510)))
      (fun t x => by rw [pix444_vArr])
      (List.range img.w) s)
    (List.range img.h) st

/-- For 8-bit channels the wrapping uint32 evaluation of the U contribution
computes the exact integer value. -/
theorem cuExpr_eq_spec (c : NRGBA) (hr : c.r < 256) (hg : c.g < 256) (hb : c.b < 256) :
    cuExpr c.r c.g c.b = (specContribU c).toNat := by
  unfold cuExpr specContribU uadd usub umul W32
  omega

/-- For 8-bit channels the wrapping uint32 evaluation of the V contribution
computes the exact integer value (the intermediate differences wrap but the
final sum is restored). -/
theorem cvExpr_eq_spec (c : NRGBA) (hr : c.r < 256) (hg : c.g < 256) (hb : c.b < 256) :
    cvExpr c.r c.g c.b = (specContribV c).toNat := by
  unfold cvExpr specContribV uadd usub umul W32
  omega

theorem nrgb_r_lt (img : RasterImage) (x y : Nat) : (nrgb img x y).r < 256 :=
  Nat.mod_lt _ (by decide)

theorem nrgb_g_lt (img : RasterImage) (x y : Nat) : (nrgb img x y).g < 256 :=
  Nat.mod_lt _ (by decide)

theorem nrgb_b_lt (img : RasterImage) (x y : Nat) : (nrgb img x y).b < 256 :=
  Nat.mod_lt _ (by decide)

theorem cuAt_eq_spec (img : RasterImage) (x y : Nat) :
    cuAt img x y = (specContribU (nrgb img x y)).toNat :=
  cuExpr_eq_spec (nrgb img x y) (nrgb_r_lt img x y) (nrgb_g_lt img x y) (nrgb_b_lt img x y)

theorem cvAt_eq_spec (img : RasterImage) (x y : Nat) :
    cvAt img x y = (specContribV (nrgb img x y)).toNat :=
  cvExpr_eq_spec (nrgb img x y) (nrgb_r_lt img x y) (nrgb_g_lt img x y) (nrgb_b_lt img x y)

theorem specContribU_toNat_le (c : NRGBA) (hb : c.b < 256) :
    (specContribU c).toNat ≤ 54336165 := by
  unfold specContribU
  omega

theorem specContribV_toNat_le (c : NRGBA) (hr : c.r < 256) :
    (specContribV c).toNat ≤ 85981155 := by
  unfold specContribV
  omega

theorem uadd_quarter_chain (a b c d : Nat) (ha : a < W32) (hb : b < W32)
    (hc : c < W32) (hd : d < W32) :
    uadd (uadd (uadd (a / 4) (b / 4)) (c / 4)) (d / 4) = a / 4 + b / 4 + c / 4 + d / 4 := by
  unfold W32 at ha hb hc hd
  unfold uadd W32
  omega

theorem uadd_half_chain (a b : Nat) (ha : a < W32) (hb : b < W32) :
    uadd (a / 2) (b / 2) = a / 2 + b / 2 := by
  unfold W32 at ha hb
  unfold uadd W32
  omega

theorem coord1_eq (x w : Nat) :
    x + booltoint (decide (x + 1 < w)) = if x + 1 < w then x + 1 else x := by
  unfold booltoint
  by_cases hc : x + 1 < w <;> simp [hc]

theorem u420valAt_eq_spec (img : RasterImage) (x y : Nat) :
    u420valAt img x y = specU420 img x y := by
  have h0 : (specContribU (nrgb img x y)).toNat < W32 :=
    lt_of_le_of_lt (specContribU_toNat_le _ (nrgb_b_lt img x y)) (by decide)
  have h1 : ∀ a b : Nat, (specContribU (nrgb img a b)).toNat < W32 := fun a b =>
    lt_of_le_of_lt (specContribU_toNat_le _ (nrgb_b_lt img a b)) (by decide)
  simp only [u420valAt, specU420, cuAt_eq_spec, coord1_eq]
  rw [uadd_quarter_chain _ _ _ _ (h1 _ _) (h1 _ _) (h1 _ _) (h1 _ _)]

theorem v420valAt_eq_spec (img : RasterImage) (x y : Nat) :
    v420valAt img x y = specV420 img x y := by
  have h1 : ∀ a b : Nat, (specContribV (nrgb img a b)).toNat < W32 := fun a b =>
    lt_of_le_of_lt (specContribV_toNat_le _ (nrgb_r_lt img a b)) (by decide)
  simp only [v420valAt, specV420, cvAt_eq_spec, coord1_eq]
  rw [uadd_quarter_chain _ _ _ _ (h1 _ _) (h1 _ _) (h1 _ _) (h1 _ _)]

theorem u422valAt_eq_spec (img : RasterImage) (x y : Nat) :
    u422valAt img x y = specU422 img x y := by
  have h1 : ∀ a b : Nat, (specContribU (nrgb img a b)).toNat < W32 := fun a b =>
    lt_of_le_of_lt (specContribU_toNat_le _ (nrgb_b_lt img a b)) (by decide)
  simp only [u422valAt, specU422, cuAt_eq_spec, coord1_eq]
  rw [uadd_half_chain _ _ (h1 _ _) (h1 _ _)]

theorem v422valAt_eq_spec (img : RasterImage) (x y : Nat) :
    v422valAt img x y = specV422 img x y := by
  have h1 : ∀ a b : Nat, (specContribV (nrgb img a b)).toNat < W32 := fun a b =>
    lt_of_le_of_lt (specContribV_toNat_le _ (nrgb_r_lt img a b)) (by decide)
  simp only [v422valAt, specV422, cvAt_eq_spec, coord1_eq]
  rw [uadd_half_chain _ _ (h1 _ _) (h1 _ _)]

theorem conv420_uData_getD (img : RasterImage) (hw : img.w + 15 < W32)
    (hh : img.h + 15 < W32) (bi bj : Nat)
    (hbi : bi < (img.w + 1) / 2) (hbj : bj < (img.h + 1) / 2) :
    ((conv420 img (pad16 img.w) (pad16 img.w >>> 1) (st0420 img)).uArr).getD
      (bi + bj * (pad16 img.w >>> 1)) 0 = u420valAt img (2 * bi) (2 * bj) := by
  rw [conv420_uArr]
  have hcw : (img.w + 1) / 2 ≤ pad16 img.w >>> 1 := ceilhalf_le_pad16_half hw
  have hch : (img.h + 1) / 2 ≤ pad16 img.h >>> 1 := ceilhalf_le_pad16_half hh
  apply nested_set_getD (fun bj bi => bi + bj * (pad16 img.w >>> 1))
      (fun bj bi => u420valAt img (2 * bi) (2 * bj)) (st0420 img).uArr
      ((img.h + 1) / 2) ((img.w + 1) / 2) ?_ ?_ bj bi hbj hbi
  · intro a b a' b' ha hb ha' hb' hab
    have := idx_inj (Nat.lt_of_lt_of_le hb hcw) (Nat.lt_of_lt_of_le hb' hcw) hab
    exact ⟨this.2, this.1⟩
  · intro a b ha hb
    show b + a * (pad16 img.w >>> 1) <
      (List.replicate ((pad16 img.w >>> 1) * (pad16 img.h >>> 1)) 0).length
    rw [List.length_replicate]
    exact idx_lt (Nat.lt_of_lt_of_le hb hcw) (Nat.lt_of_lt_of_le ha hch)

theorem conv420_vData_getD (img : RasterImage) (hw : img.w + 15 < W32)
    (hh : img.h + 15 < W32) (bi bj : Nat)
    (hbi : bi < (img.w + 1) / 2) (hbj : bj < (img.h + 1) / 2) :
    ((conv420 img (pad16 img.w) (pad16 img.w >>> 1) (st0420 img)).vArr).getD
      (bi + bj * (pad16 img.w >>> 1)) 0 = v420valAt img (2 * bi) (2 * bj) := by
  rw [conv420_vArr]
  have hcw : (img.w + 1) / 2 ≤ pad16 img.w >>> 1 := ceilhalf_le_pad16_half hw
  have hch : (img.h + 1) / 2 ≤ pad16 img.h >>> 1 := ceilhalf_le_pad16_half hh
  apply nested_set_getD (fun bj bi => bi + bj * (pad16 img.w >>> 1))
      (fun bj bi => v420valAt img (2 * bi) (2 * bj)) (st0420 img).vArr
      ((img.h + 1) / 2) ((img.w + 1) / 2) ?_ ?_ bj bi hbj hbi
  · intro a b a' b' ha hb ha' hb' hab
    have := idx_inj (Nat.lt_of_lt_of_le hb hcw) (Nat.lt_of_lt_of_le hb' hcw) hab
    exact ⟨this.2, this.1⟩
  · intro a b ha hb
    show b + a * (pad16 img.w >>> 1) <
      (List.replicate ((pad16 img.w >>> 1) * (pad16 img.h >>> 1)) 0).length
    rw [List.length_replicate]
    exact idx_lt (Nat.lt_of_lt_of_le hb hcw) (Nat.lt_of_lt_of_le ha hch)

theorem conv422_uData_getD (img : RasterImage) (hw : img.w + 15 < W32)
    (hh : img.h + 15 < W32) (bi y : Nat)
    (hbi : bi < (img.w + 1) / 2) (hy : y < img.h) :
    ((conv422 img (pad16 img.w) (pad16 img.w >>> 1) (st0422 img)).uArr).getD
      (bi + y * (pad16 img.w >>> 1)) 0 = u422valAt img (2 * bi) y := by
  rw [conv422_uArr]
  have hcw : (img.w + 1) / 2 ≤ pad16 img.w >>> 1 := ceilhalf_le_pad16_half hw
  have hhp : img.h ≤ pad16 img.h := pad16_ge hh
  apply nested_set_getD (fun y bi => bi + y * (pad16 img.w >>> 1))
      (fun y bi => u422valAt img (2 * bi) y) (st0422 img).uArr
      img.h ((img.w + 1) / 2) ?_ ?_ y bi hy hbi
  · intro a b a' b' ha hb ha' hb' hab
    have := idx_inj (Nat.lt_of_lt_of_le hb hcw) (Nat.lt_of_lt_of_le hb' hcw) hab
    exact ⟨this.2, this.1⟩
  · intro a b ha hb
    show b + a * (pad16 img.w >>> 1) <
      (List.replicate ((pad16 img.w >>> 1) * pad16 img.h) 0).length
    rw [List.length_replicate]
    exact idx_lt (Nat.lt_of_lt_of_le hb hcw) (by omega)

theorem conv422_vData_getD (img : RasterImage) (hw : img.w + 15 < W32)
    (hh : img.h + 15 < W32) (bi y : Nat)
    (hbi : bi < (img.w + 1) / 2) (hy : y < img.h) :
    ((conv422 img (pad16 img.w) (pad16 img.w >>> 1) (st0422 img)).vArr).getD
      (bi + y * (pad16 img.w >>> 1)) 0 = v422valAt img (2 * bi) y := by
  rw [conv422_vArr]
  have hcw : (img.w + 1) / 2 ≤ pad16 img.w >>> 1 := ceilhalf_le_pad16_half hw
  have hhp : img.h ≤ pad16 img.h := pad16_ge hh
  apply nested_set_getD (fun y bi => bi + y * (pad16 img.w >>> 1))
      (fun y bi => v422valAt img (2 * bi) y) (st0422 img).vArr
      img.h ((img.w + 1) / 2) ?_ ?_ y bi hy hbi
  · intro a b a' b' ha hb ha' hb' hab
    have := idx_inj (Nat.lt_of_lt_of_le hb hcw) (Nat.lt_of_lt_of_le hb' hcw) hab
    exact ⟨this.2, this.1⟩
  · intro a b ha hb
    show b + a * (pad16 img.w >>> 1) <
      (List.replicate ((pad16 img.w >>> 1) * pad16 img.h) 0).length
    rw [List.length_replicate]
    exact idx_lt (Nat.lt_of_lt_of_le hb hcw) (by omega)

theorem conv444_uData_getD (img : RasterImage) (hw : img.w + 15 < W32)
    (hh : img.h + 15 < W32) (x y : Nat) (hx : x < img.w) (hy : y < img.h) :
    ((conv444 img (pad16 img.w) (st0444 img)).uArr).getD
      (x + y * pad16 img.w) 0 = clamp (cuAt img x y / 225930) := by
  rw [conv444_uArr]
  have hwp : img.w ≤ pad16 img.w := pad16_ge hw
  have hhp : img.h ≤ pad16 img.h := pad16_ge hh
  apply nested_set_getD (fun y x => x + y * pad16 img.w)
      (fun y x => clamp (cuAt img x y / 225930)) (st0444 img).uArr
      img.h img.w ?_ ?_ y x hy hx
  · intro a b a' b' ha hb ha' hb' hab
    have := idx_inj (by omega) (by omega) hab
    exact ⟨this.2, this.1⟩
  · intro a b ha hb
    show b + a * pad16 img.w < (List.replicate (pad16 img.w * pad16 img.h) 0).length
    rw [List.length_replicate]
    exact idx_lt (by omega) (by omega)

theorem conv444_vData_getD (img : RasterImage) (hw : img.w + 15 < W32)
    (hh : img.h + 15 < W32) (x y : Nat) (hx : x < img.w) (hy : y < img.h) :
    ((conv444 img (pad16 img.w) (st0444 img)).vArr).getD
      (x + y * pad16 img.w) 0 = clamp (cvAt img x y / 357510) := by
  rw [conv444_vArr]
  have hwp : img.w ≤ pad16 img.w := pad16_ge hw
  have hhp : img.h ≤ pad16 img.h := pad16_ge hh
  apply nested_set_getD (fun y x => x + y * pad16 img.w)
      (fun y x => clamp (cvAt img x y / 357510)) (st0444 img).vArr
      img.h img.w ?_ ?_ y x hy hx
  · intro a b a' b' ha hb ha' hb' hab
    have := idx_inj (by omega) (by omega) hab
    exact ⟨this.2, this.1⟩
  · intro a b ha hb
    show b + a * pad16 img.w < (List.replicate (pad16 img.w * pad16 img.h) 0).length
    rw [List.length_replicate]
    exact idx_lt (by omega) (by omega)

theorem u444_eq_spec (img : RasterImage) (x y : Nat) :
    clamp (cuAt img x y / 225930) = specU444 img x y := by
  rw [specU444, cuAt_eq_spec]

theorem v444_eq_spec (img : RasterImage) (x y : Nat) :
    clamp (cvAt img x y / 357510) = specV444 img x y := by
  rw [specV444, cvAt_eq_spec]

/-- C2 counterexample: on the 2×2 solid image (208, 0, 236) at 4:2:0 the code
stores chroma-V sample 202, while the claimed "sum of the four contributions
divided by 4, then by 357510" yields 203. -/
theorem c2_claim_counterexample :
    (convertFromRasterImage emptyBuf ChromaFormat.r420 teal2x2).buf.vData.getD 0 0 = 202 ∧
    clamp ((((specContribV (nrgb teal2x2 0 0)).toNat + (specContribV (nrgb teal2x2 1 0)).toNat
      + (specContribV (nrgb teal2x2 0 1)).toNat + (specContribV (nrgb teal2x2 1 1)).toNat)
      / 4) / 357510) = 203 ∧
    (202 : Nat) ≠ 203 := by
  refine ⟨by decide, by decide, by decide⟩

/-- C2 (amended): at 4:2:0 each 2×2 block yields one U and one V chroma
sample whose value is obtained by dividing each of the four contributions by
4 individually and summing the quotients before the final division by the
matrix constant (225930 for U, 357510 for V) and clamping; at 4:2:2 each of
the two contributions is divided by 2 and the quotients summed before the
final divide; at 4:4:4 every pixel gets its own chroma sample with no
averaging. -/
theorem c2_amended_chroma (buf : YUVBuffer) (img : RasterImage)
    (hw : img.w + 15 < W32) (hh : img.h + 15 < W32) :
    (∀ bi bj, bi < (img.w + 1) / 2 → bj < (img.h + 1) / 2 →
      (convertFromRasterImage buf ChromaFormat.r420 img).buf.uData.getD
        (bi + bj * (pad16 img.w >>> 1)) 0 = specU420 img (2 * bi) (2 * bj) ∧
      (convertFromRasterImage buf ChromaFormat.r420 img).buf.vData.getD
        (bi + bj * (pad16 img.w >>> 1)) 0 = specV420 img (2 * bi) (2 * bj)) ∧
    (∀ bi y, bi < (img.w + 1) / 2 → y < img.h →
      (convertFromRasterImage buf ChromaFormat.r422 img).buf.uData.getD
        (bi + y * (pad16 img.w >>> 1)) 0 = specU422 img (2 * bi) y ∧
      (convertFromRasterImage buf ChromaFormat.r422 img).buf.vData.getD
        (bi + y * (pad16 img.w >>> 1)) 0 = specV422 img (2 * bi) y) ∧
    (∀ x y, x < img.w → y < img.h →
      (convertFromRasterImage buf ChromaFormat.r444 img).buf.uData.getD
        (x + y * pad16 img.w) 0 = specU444 img x y ∧
      (convertFromRasterImage buf ChromaFormat.r444 img).buf.vData.getD
        (x + y * pad16 img.w) 0 = specV444 img x y) := by
  refine ⟨fun bi bj hbi hbj => ?_, fun bi y hbi hy => ?_, fun x y hx hy => ?_⟩
  · rw [convert420_eq]
    exact ⟨(conv420_uData_getD img hw hh bi bj hbi hbj).trans
        (u420valAt_eq_spec img (2 * bi) (2 * bj)),
      (conv420_vData_getD img hw hh bi bj hbi hbj).trans
        (v420valAt_eq_spec img (2 * bi) (2 * bj))⟩
  · rw [convert422_eq]
    exact ⟨(conv422_uData_getD img hw hh bi y hbi hy).trans
        (u422valAt_eq_spec img (2 * bi) y),
      (conv422_vData_getD img hw hh bi y hbi hy).trans
        (v422valAt_eq_spec img (2 * bi) y)⟩
  · rw [convert444_eq]
    exact ⟨(conv444_uData_getD img hw hh x y hx hy).trans (u444_eq_spec img x y),
      (conv444_vData_getD img hw hh x y hx hy).trans (v444_eq_spec img x y)⟩

/-- Witness for the amended C2 at the concrete 2×2 image. -/
theorem c2_amended_chroma_witness :
    (convertFromRasterImage emptyBuf ChromaFormat.r420 teal2x2).buf.uData.getD 0 0
      = specU420 teal2x2 0 0 ∧
    (convertFromRasterImage emptyBuf ChromaFormat.r420 teal2x2).buf.vData.getD 0 0
      = specV420 teal2x2 0 0 :=
  (c2_amended_chroma emptyBuf teal2x2 (by decide) (by decide)).1 0 0
    (by decide) (by decide)

set_option maxRecDepth 40000 in
/-- C3: converting the 17×15 solid-red image at 4:2:0 yields a luma plane of
padded size 32×16 (stride 32, height 16) whose entries are the BT.601
red-channel value `clamp((65481*255 + 4207500) / 255000)` at every position
of the visible 17×15 window and zero everywhere else. -/
theorem c3_red17x15 :
    (convertFromRasterImage emptyBuf ChromaFormat.r420 red17x15).retval = true ∧
    (convertFromRasterImage emptyBuf ChromaFormat.r420 red17x15).buf.yWidth = 32 ∧
    (convertFromRasterImage emptyBuf ChromaFormat.r420 red17x15).buf.yStride = 32 ∧
    (convertFromRasterImage emptyBuf ChromaFormat.r420 red17x15).buf.yHeight = 16 ∧
    (convertFromRasterImage emptyBuf ChromaFormat.r420 red17x15).buf.yData =
      (List.range (32 * 16)).map (fun i =>
        if i % 32 < 17 ∧ i / 32 < 15 then clamp ((65481 * 255 + 4207500) / 255000)
        else 0) := by
  refine ⟨rfl, by decide, by decide, by decide, by decide⟩

/-- C9: `SetDropFrames` inverts the boolean sense relative to its name —
`dropframes_p` becomes 0 when the argument is true and 1 when it is false,
so the Set/Get round-trip yields the negation of the argument. -/
theorem c9_dropframes_inversion (v : TheoraInfo) (b : Bool) :
    (setDropFrames v b).dropframes_p = (if b = true then 0 else 1) ∧
    getDropFrames (setDropFrames v b) = !b := by
  cases b <;> simp [setDropFrames, getDropFrames]

/-- C10: `SetKeyframeAuto` has the same inverted sense as `SetDropFrames`,
while `SetQuick` does not invert: `GetQuick` returns the argument. -/
theorem c10_keyframe_auto_inversion (v : TheoraInfo) (b : Bool) :
    (setKeyframeAuto v b).keyframe_auto_p = (if b = true then 0 else 1) ∧
    getKeyframeAuto (setKeyframeAuto v b) = !b ∧
    getQuick (setQuick v b) = b := by
  cases b <;> simp [setKeyframeAuto, getKeyframeAuto, setQuick, getQuick]

/-- C8: `PacketOut` returns nil exactly on engine status 1, the transient
not-ready error on status 0, the stream-completed signal on status -1, and a
generic theora exception carrying the status for any other code, regardless
of the `last_p` flag. -/
theorem c8_packetout_status (last_p : Bool) (R : Int) :
    (packetOut last_p R = none ↔ R = 1) ∧
    (R = 0 → packetOut last_p R = some EncError.notReadyExc) ∧
    (R = -1 → packetOut last_p R = some EncError.completedExc) ∧
    (R ≠ 1 → R ≠ 0 → R ≠ -1 → packetOut last_p R = some (EncError.theoraExc R)) := by
  refine ⟨⟨fun h => ?_, fun h => by simp [packetOut, h]⟩,
    fun h => by norm_num [packetOut, h], fun h => by norm_num [packetOut, h],
    fun h1 h2 h3 => by simp [packetOut, h1, h2, h3]⟩
  by_cases h1 : R = 1
  · exact h1
  · exfalso
    by_cases h2 : R = -1 <;> by_cases h3 : R = 0 <;> simp [packetOut, h1, h2, h3] at h

/-- Witness for C8 at the four kinds of status codes. -/
theorem c8_packetout_status_witness :
    packetOut false 1 = none ∧
    packetOut false 0 = some EncError.notReadyExc ∧
    packetOut true (-1) = some EncError.completedExc ∧
    packetOut true (-10) = some (EncError.theoraExc (-10)) :=
  ⟨(c8_packetout_status false 1).1.mpr rfl, (c8_packetout_status false 0).2.1 rfl,
   (c8_packetout_status true (-1)).2.2.1 rfl,
   (c8_packetout_status true (-10)).2.2.2 (by decide) (by decide) (by decide)⟩

/-- C7 (code behavior): the first `Close` succeeds and nils the ogg stream
state, but a second `Close` on the already-closed encoder calls `Flush`,
which invokes `PagesFlushToStream` on the nil `foggs` interface and faults,
contradicting the claimed idempotence. -/
theorem c7_close_twice_faults :
    encClose false ⟨some ()⟩ = GoResult.ok ⟨none⟩ ∧
    encClose false ⟨none⟩ = GoResult.nilFault := ⟨rfl, rfl⟩

/-- C6: a successful `SaveCustomHeadersToStream` produces the three header
packets exactly once each, in the fixed order identification (`Header`),
comment (`Comment`), setup (`Tables`); whatever is produced is always a
prefix of that order; and the error returned is the first failing step's
error (any step failure returns immediately, so no later header packet is
produced). -/
theorem c6_header_packet_order (o : HdrOracle) :
    ((saveCustomHeadersToStream o).2 = none →
      (saveCustomHeadersToStream o).1 =
        [HdrPacket.ident, HdrPacket.comm, HdrPacket.setup]) ∧
    ((saveCustomHeadersToStream o).1 = [] ∨
     (saveCustomHeadersToStream o).1 = [HdrPacket.ident] ∨
     (saveCustomHeadersToStream o).1 = [HdrPacket.ident, HdrPacket.comm] ∨
     (saveCustomHeadersToStream o).1 =
       [HdrPacket.ident, HdrPacket.comm, HdrPacket.setup]) ∧
    (saveCustomHeadersToStream o).2 = firstSome [o.newPacketErr, o.headerErr,
      o.savePacket1Err, o.commentErr, o.packetIn1Err, o.tablesErr,
      o.packetIn2Err, o.savePacket2Err] := by
  obtain ⟨f1, f2, f3, f4, f5, f6, f7, f8⟩ := o
  cases f1 <;> cases f2 <;> cases f3 <;> cases f4 <;> cases f5 <;> cases f6 <;>
    cases f7 <;> cases f8 <;>
    simp [saveCustomHeadersToStream, firstSome, Option.orElse]

/-- Witness for C6: with every step succeeding, exactly the three header
packets are produced in order. -/
theorem c6_header_packet_order_witness :
    (saveCustomHeadersToStream
      ⟨none, none, none, none, none, none, none, none⟩).1 =
      [HdrPacket.ident, HdrPacket.comm, HdrPacket.setup] :=
  (c6_header_packet_order ⟨none, none, none, none, none, none, none, none⟩).1 rfl

end GoTheora
